import Mathlib

/-!
Verification of the Game-of-Life repository: a shallow embedding of the
browser-side board engine and animation controller (public/script.js) and
of the static file server (server.js), with theorems checking the
specification's claims.

Conventions of the embedding:
* JS arrays of cells become `List (List Cell)`; in-place mutation of a
  cell becomes a functional update of the grid at one index, and the
  row-major `for` loops become left folds over the list of visited
  indices, so the sequential order of the source is preserved literally.
* JS numbers used as grid coordinates become `Int` (neighbour offsets are
  negative); sizes and lengths become `Nat`.
* `Math.random() < 0.1` in the `Cell` constructor is modelled by an
  explicit parameter `rand : Nat → Nat → Bool` giving the initial alive
  state of the cell at each (row, col).
* Reading `this.cells[r][c].alive` at an out-of-bounds index throws in
  JS; the embedding's total function `aliveAtI` returns `false` there,
  and the in-bounds theorems show that branch is never taken during a
  step of an initialised board.
* Canvas drawing is modelled as a list of emitted `CanvasOp` operations;
  `requestAnimationFrame`/`setTimeout` scheduling is modelled by a small
  transition system `World` whose events deliver pending callbacks.
-/

namespace GameOfLife

/-- Canvas width constant from script.js. -/
def canvasWidth : Nat := 800

/-- Canvas height constant from script.js. -/
def canvasHeight : Nat := 800

/-- Number of cells per row, constant from script.js. -/
def cellsPerRow : Nat := 100

/-- A cell of the board: alive flag, precomputed neighbour coordinates,
transient live-neighbour count, fixed position and pixel size
(fields of the `Cell` class constructor). -/
structure Cell where
  alive : Bool
  neighbours : List (Int × Int)
  livingNeighbous : Nat
  position : Int × Int
  size : Nat
deriving Repr, DecidableEq

/-- The board: row length, column length, grid of cells, cell pixel size
(fields of the `Board` class constructor). -/
structure Board where
  rowLength : Nat
  columnLength : Nat
  cells : List (List Cell)
  cellSize : Nat
deriving Repr, DecidableEq

/-- The `Board(rowLength)` constructor: `columnLength` and `cellSize` are
derived from the canvas dimensions and the cells-per-row constant; the
cells array starts empty. -/
def Board.new (rowLength : Nat) : Board :=
  { rowLength := rowLength
    columnLength := canvasHeight / (canvasWidth / cellsPerRow)
    cells := []
    cellSize := canvasWidth / cellsPerRow }

/-- `Board.directions`: row/column offsets to move from a cell in each of
the eight directions, in source order. -/
def Board.directions : List (Int × Int) :=
  [(-1, 0), (-1, 1), (0, 1), (1, 1), (1, 0), (1, -1), (0, -1), (-1, -1)]

/-- `Board.prototype.isInBounds`: whether a (row, col) position is on the
board. -/
def Board.isInBounds (b : Board) (row col : Int) : Bool :=
  decide (0 ≤ row ∧ row < (b.columnLength : Int) ∧ 0 ≤ col ∧ col < (b.rowLength : Int))

/-- `Board.prototype.getNeighbours`: the positions one step in each of the
eight directions that are in bounds, in source order. -/
def Board.getNeighbours (b : Board) (row col : Int) : List (Int × Int) :=
  (Board.directions.map (fun d => (row + d.1, col + d.2))).filter
    (fun p => b.isInBounds p.1 p.2)

/-- Look up the cell at Nat coordinates (row, col) in a grid. -/
def cellAt? (g : List (List Cell)) (r c : Nat) : Option Cell :=
  (g[r]?).bind (fun row => row[c]?)

/-- The alive flag read at an Int position (`this.cells[n[0]][n[1]].alive`
in the source); out-of-bounds reads, which would throw in JS, yield
`false`. -/
def aliveAtI (g : List (List Cell)) (p : Int × Int) : Bool :=
  if 0 ≤ p.1 ∧ 0 ≤ p.2 then
    match cellAt? g p.1.toNat p.2.toNat with
    | some cell => cell.alive
    | none => false
  else false

/-- The inner loop of `updateLivingNeighbours`: starting from 0, add one
for each neighbour whose cell is alive in the grid `g`. -/
def countLivingNeighbours (g : List (List Cell)) (ns : List (Int × Int)) : Nat :=
  ns.foldl (fun acc n => if aliveAtI g n then acc + 1 else acc) 0

/-- Functional update of a list at one index (identity out of range). -/
def modifyIdx {α : Type} : List α → Nat → (α → α) → List α
  | [], _, _ => []
  | a :: as, 0, f => f a :: as
  | a :: as, i + 1, f => a :: modifyIdx as i f

/-- Functional update of a grid at one (row, col) index. -/
def modifyCell (g : List (List Cell)) (r c : Nat) (f : Cell → Cell) :
    List (List Cell) :=
  modifyIdx g r (fun row => modifyIdx row c f)

/-- The (row, col) pairs visited by the nested `for` loops, in row-major
source order. -/
def rowMajorIndices (rows cols : Nat) : List (Nat × Nat) :=
  (List.range rows).flatMap (fun r => (List.range cols).map (fun c => (r, c)))

/-- One iteration of the `updateLivingNeighbours` loop body: overwrite the
visited cell's `livingNeighbous` with the count taken from the current
grid. -/
def updateLNStep (g : List (List Cell)) (rc : Nat × Nat) : List (List Cell) :=
  modifyCell g rc.1 rc.2
    (fun cell => { cell with livingNeighbous := countLivingNeighbours g cell.neighbours })

/-- `Board.prototype.updateLivingNeighbours`: visit every cell in row-major
order, setting its live-neighbour count from the grid as it stands when
the cell is visited. -/
def Board.updateLivingNeighbours (b : Board) : Board :=
  { b with cells := (rowMajorIndices b.columnLength b.rowLength).foldl updateLNStep b.cells }

/-- The body of the `updateAliveStatus` loop on one cell: the two
sequential `if` statements of the source. -/
def applyRules (cell : Cell) : Cell :=
  let cell1 :=
    if cell.alive then
      if cell.livingNeighbous < 2 ∨ cell.livingNeighbous > 3 then
        { cell with alive := false }
      else cell
    else cell
  if ¬ cell1.alive then
    if cell1.livingNeighbous = 3 then { cell1 with alive := true } else cell1
  else cell1

/-- `Board.prototype.updateAliveStatus`: visit every cell in row-major
order, applying the survival/birth rules to its alive flag. -/
def Board.updateAliveStatus (b : Board) : Board :=
  let g := (rowMajorIndices b.columnLength b.rowLength).foldl
    (fun g rc => modifyCell g rc.1 rc.2 applyRules) b.cells
  { b with cells := g }

/-- One tick of the simulation as run by `animate`: recount living
neighbours, then update alive flags. -/
def Board.step (b : Board) : Board :=
  b.updateLivingNeighbours.updateAliveStatus

/-- `Board.prototype.init`: rebuild the cells array; the cell at (row, col)
gets alive state `rand row col` (modelling `Math.random() < 0.1`), the
precomputed in-bounds neighbour list, a zero live-neighbour count, its
position, and the board's cell size.  (The source ends with `this.draw()`,
a canvas side effect modelled separately by `Board.draw`.) -/
def Board.init (b : Board) (rand : Nat → Nat → Bool) : Board :=
  { b with cells :=
      (List.range b.columnLength).map (fun row =>
        (List.range b.rowLength).map (fun col =>
          { alive := rand row col
            neighbours := b.getNeighbours (row : Int) (col : Int)
            livingNeighbous := 0
            position := ((row : Int), (col : Int))
            size := b.cellSize })) }

/-- A canvas drawing operation emitted by the renderer. -/
inductive CanvasOp where
  | clearRect (x y w h : Nat)
  | fillRect (style : String) (x y : Int) (w h : Nat)
deriving Repr, DecidableEq

/-- `Board.prototype.draw`: one `fillRect` per cell in row-major order,
with the fill style derived from position for alive cells and fixed for
dead cells.  (Indices missing from a malformed grid are skipped; an
initialised board has none.) -/
def Board.draw (b : Board) : List CanvasOp :=
  (List.range b.columnLength).flatMap (fun row =>
    (List.range b.rowLength).filterMap (fun col =>
      (cellAt? b.cells row col).map (fun cell =>
        let hue := cell.position.1 + cell.position.2 * 4
        let style :=
          if cell.alive then "hsla(" ++ toString hue ++ ", 80%, 80%, 1)"
          else "hsla(240, 30%, 20%, 100%)"
        CanvasOp.fillRect style (cell.position.2 * (cell.size : Int))
          (cell.position.1 * (cell.size : Int)) cell.size cell.size)))

/-- The `AnimationController` state: target fps, the board, the playing
flag, and `tref`, the last requested animation-frame handle. -/
structure AnimationController where
  fps : Nat
  board : Board
  isPlaying : Bool
  tref : Nat
deriving Repr, DecidableEq

/-- The `AnimationController` constructor: fresh board of `cellsPerRow`
cells per row, initialised with `rand`, not playing, `tref = 0`. -/
def AnimationController.new (fps : Nat) (rand : Nat → Nat → Bool) :
    AnimationController :=
  { fps := fps
    board := (Board.new cellsPerRow).init rand
    isPlaying := false
    tref := 0 }

/-- `pause`: if playing, clear the playing flag; otherwise do nothing. -/
def AnimationController.pause (ac : AnimationController) : AnimationController :=
  if ac.isPlaying then { ac with isPlaying := false } else ac

/-- `play`: if not playing, set the playing flag and record the handle `h`
of the newly requested animation frame; otherwise do nothing. -/
def AnimationController.play (ac : AnimationController) (h : Nat) :
    AnimationController :=
  if ac.isPlaying then ac else { ac with isPlaying := true, tref := h }

/-- `restart`: pause, clear the whole canvas, reinitialise the board (whose
`init` redraws it).  Returns the new controller state and the emitted
canvas operations. -/
def AnimationController.restart (ac : AnimationController)
    (rand : Nat → Nat → Bool) : AnimationController × List CanvasOp :=
  let ac1 := ac.pause
  let b := ac1.board.init rand
  ({ ac1 with board := b },
    CanvasOp.clearRect 0 0 canvasWidth canvasHeight :: b.draw)

/-- A state of the browser scheduler together with the controller: the
handles of pending `requestAnimationFrame` callbacks (all of which run
`animate`), the number of pending `setTimeout` callbacks (the throttling
closure inside `animate`), a counter for fresh frame handles, and the
number of ticks (`animate` bodies) executed so far. -/
structure World where
  ac : AnimationController
  pendingFrames : List Nat
  pendingTimeouts : Nat
  nextHandle : Nat
  ticks : Nat
deriving Repr, DecidableEq

/-- Events of the scheduler model: the play/pause button clicks, delivery
of a pending animation frame with a given handle, and firing of a pending
timeout. -/
inductive WEvent where
  | clickPlay
  | clickPause
  | fireFrame (h : Nat)
  | fireTimeout
deriving Repr, DecidableEq

/-- One transition of the scheduler model.  `clickPlay` runs `play`
(requesting a frame when the guard passes); `clickPause` runs `pause`
(which only clears the flag); delivering a pending frame runs the body of
`animate` — a full tick (`updateLivingNeighbours`, `updateAliveStatus`,
`draw`) — and schedules the throttling timeout; firing a timeout either
requests the next frame (when playing) or cancels the frame `tref` (when
stopped).  An event whose callback is not pending changes nothing. -/
def WStep (w : World) : WEvent → World
  | WEvent.clickPlay =>
    if w.ac.isPlaying then w
    else
      { w with ac := w.ac.play w.nextHandle
               pendingFrames := w.pendingFrames ++ [w.nextHandle]
               nextHandle := w.nextHandle + 1 }
  | WEvent.clickPause => { w with ac := w.ac.pause }
  | WEvent.fireFrame h =>
    if h ∈ w.pendingFrames then
      { w with ac := { w.ac with board := w.ac.board.step }
               pendingFrames := w.pendingFrames.erase h
               pendingTimeouts := w.pendingTimeouts + 1
               ticks := w.ticks + 1 }
    else w
  | WEvent.fireTimeout =>
    if w.pendingTimeouts = 0 then w
    else if w.ac.isPlaying then
      { w with ac := { w.ac with tref := w.nextHandle }
               pendingFrames := w.pendingFrames ++ [w.nextHandle]
               pendingTimeouts := w.pendingTimeouts - 1
               nextHandle := w.nextHandle + 1 }
    else
      { w with pendingFrames := w.pendingFrames.erase w.ac.tref
               pendingTimeouts := w.pendingTimeouts - 1 }

/-- Run a list of scheduler events from a world. -/
def runEvents (w : World) (evs : List WEvent) : World :=
  evs.foldl WStep w

/-- Whether a scheduler event is a click on the play button. -/
def WEvent.isPlayClick : WEvent → Bool
  | WEvent.clickPlay => true
  | _ => false

/-! The static file server (server.js). -/

/-- The fixed listen port of server.js. -/
def port : Nat := 5000

/-- A response of the server model. -/
inductive HttpResponse where
  | sendFile (p : String)
  | staticFile (p : String)
  | notFound
deriving Repr, DecidableEq

/-- The HTTP method string used in requests. -/
def getMethod : String := "GET"

/-- The mount path of the static middleware. -/
def publicMount : String := "/public"

/-- The mount path followed by a path separator. -/
def publicMountSlash : String := "/public/"

/-- The root path. -/
def rootPath : String := "/"

/-- The entry page file name. -/
def indexFile : String := "index.html"

/-- Whether the char list `p` starts with the char list `pre`. -/
def listStartsWith : List Char → List Char → Bool
  | _, [] => true
  | [], _ :: _ => false
  | a :: as, b :: bs => a == b && listStartsWith as bs

/-- Whether a request path falls under the `/public` mount of the static
middleware (the mount itself or any path below it). -/
def matchesPublic (p : String) : Bool :=
  p == publicMount || listStartsWith p.data publicMountSlash.data

/-- The routing of server.js: the static middleware is mounted at
`/public` (serving the request path relative to the mount from the public
directory), then `GET /` sends the entry HTML page; any other request
falls through to the framework's 404.  (The static middleware's internal
handling of HEAD requests is framework behaviour and elided.) -/
def handle (method p : String) : HttpResponse :=
  if method == getMethod && matchesPublic p then
    HttpResponse.staticFile (p.drop publicMount.length)
  else if method == getMethod && p == rootPath then
    HttpResponse.sendFile indexFile
  else HttpResponse.notFound

/-! Reference definitions taken from the specification's words, for the
refinement claims: the Game-of-Life transition rule and the pure
simultaneous step function. -/

/-- The transition rule as the spec states it: a live cell with 2 or 3
live neighbours survives, otherwise dies; a dead cell with exactly 3 live
neighbours is born; every other dead cell stays dead. -/
def conwayRule (alive : Bool) (n : Nat) : Bool :=
  if alive then decide (n = 2 ∨ n = 3) else decide (n = 3)

/-- The eight offsets to the orthogonally and diagonally adjacent
positions, as the spec describes neighbourhood. -/
def adjacentOffsets : List (Int × Int) :=
  [(-1, -1), (-1, 0), (-1, 1), (0, -1), (0, 1), (1, -1), (1, 0), (1, 1)]

/-- The spec's neighbour count: among the up-to-eight adjacent positions,
those that lie within a `rows × cols` board and are alive in the previous
generation `a`. -/
def specLiveNeighbourCount (rows cols : Nat) (a : Int → Int → Bool)
    (r c : Int) : Nat :=
  ((adjacentOffsets.map (fun d => (r + d.1, c + d.2))).filter
    (fun p => decide (0 ≤ p.1 ∧ p.1 < (rows : Int) ∧ 0 ≤ p.2 ∧ p.2 < (cols : Int))
      && a p.1 p.2)).length

/-- The spec's pure simultaneous step: each cell's next state is the rule
applied to its own previous state and its previous-generation neighbour
count, independent of any visiting order. -/
def specNextAlive (rows cols : Nat) (a : Int → Int → Bool) (r c : Int) : Bool :=
  conwayRule (a r c) (specLiveNeighbourCount rows cols a r c)

/-- Well-formedness of a board, as established by `init`: the grid has
`columnLength` rows of `rowLength` cells each, and the cell at each
(row, col) carries exactly the precomputed in-bounds neighbour list for
its position. -/
def Board.WellFormed (b : Board) : Prop :=
  b.cells.length = b.columnLength ∧
  (∀ row ∈ b.cells, row.length = b.rowLength) ∧
  ∀ r, r < b.columnLength → ∀ c, c < b.rowLength →
    (cellAt? b.cells r c).map Cell.neighbours =
      some (b.getNeighbours (r : Int) (c : Int))

/-! Basic lemmas about grid access and functional update. -/

theorem length_modifyIdx {α : Type} (l : List α) (i : Nat) (f : α → α) :
    (modifyIdx l i f).length = l.length := by
  induction l generalizing i with
  | nil => rfl
  | cons a as ih =>
    cases i with
    | zero => rfl
    | succ i => simp [modifyIdx, ih]

theorem getElem?_modifyIdx {α : Type} (l : List α) (i j : Nat) (f : α → α) :
    (modifyIdx l i f)[j]? = if i = j then (l[j]?).map f else l[j]? := by
  induction l generalizing i j with
  | nil => simp [modifyIdx]
  | cons a as ih =>
    cases i with
    | zero =>
      cases j with
      | zero => simp [modifyIdx]
      | succ j => simp [modifyIdx]
    | succ i =>
      cases j with
      | zero => simp [modifyIdx]
      | succ j => simpa [modifyIdx] using ih i j

theorem cellAt?_modifyCell (g : List (List Cell)) (r c r' c' : Nat)
    (f : Cell → Cell) :
    cellAt? (modifyCell g r c f) r' c' =
      if r = r' ∧ c = c' then (cellAt? g r' c').map f else cellAt? g r' c' := by
  unfold cellAt? modifyCell
  rw [getElem?_modifyIdx]
  by_cases hr : r = r'
  · subst hr
    rw [if_pos rfl]
    rcases hg : g[r]? with _ | row
    · simp [hg]
    · by_cases hc : c = c' <;> simp [hg, hc, getElem?_modifyIdx]
  · simp [hr]

theorem aliveAtI_modifyCell (g : List (List Cell)) (r c : Nat) (f : Cell → Cell)
    (hf : ∀ cell, (f cell).alive = cell.alive) (p : Int × Int) :
    aliveAtI (modifyCell g r c f) p = aliveAtI g p := by
  unfold aliveAtI
  by_cases hp : 0 ≤ p.1 ∧ 0 ≤ p.2
  · rw [if_pos hp, if_pos hp, cellAt?_modifyCell]
    by_cases hrc : r = p.1.toNat ∧ c = p.2.toNat
    · rw [if_pos hrc]
      cases cellAt? g p.1.toNat p.2.toNat with
      | none => rfl
      | some cell => simp [hf]
    · rw [if_neg hrc]
  · rw [if_neg hp, if_neg hp]

theorem countLivingNeighbours_congr (g₁ g₂ : List (List Cell))
    (h : ∀ p, aliveAtI g₁ p = aliveAtI g₂ p) (ns : List (Int × Int)) :
    countLivingNeighbours g₁ ns = countLivingNeighbours g₂ ns := by
  unfold countLivingNeighbours
  have hfun : (fun (acc : Nat) n => if aliveAtI g₁ n then acc + 1 else acc)
      = (fun (acc : Nat) n => if aliveAtI g₂ n then acc + 1 else acc) := by
    funext acc n
    rw [h n]
  rw [hfun]

theorem countLivingNeighbours_eq_length_filter (g : List (List Cell))
    (ns : List (Int × Int)) :
    countLivingNeighbours g ns = (ns.filter (fun n => aliveAtI g n)).length := by
  unfold countLivingNeighbours
  suffices h : ∀ acc, ns.foldl (fun acc n => if aliveAtI g n then acc + 1 else acc) acc
      = acc + (ns.filter (fun n => aliveAtI g n)).length by
    simpa using h 0
  intro acc
  induction ns generalizing acc with
  | nil => simp
  | cons n ns ih =>
    by_cases hn : aliveAtI g n <;> simp [hn, ih] <;> omega

/-! Characterisation of the two row-major update folds. -/

theorem cellAt?_foldl_modify (f : Cell → Cell) (L : List (Nat × Nat))
    (g : List (List Cell)) (r c : Nat) (hL : L.Nodup) :
    cellAt? (L.foldl (fun g rc => modifyCell g rc.1 rc.2 f) g) r c =
      if (r, c) ∈ L then (cellAt? g r c).map f else cellAt? g r c := by
  induction L generalizing g with
  | nil => simp
  | cons a L ih =>
    rw [List.nodup_cons] at hL
    rw [List.foldl_cons, ih _ hL.2]
    by_cases hmem : (r, c) ∈ L
    · have hne : ¬(a.1 = r ∧ a.2 = c) := by
        intro hrc
        exact hL.1 (by
          have : a = (r, c) := Prod.ext hrc.1 hrc.2
          exact this ▸ hmem)
      rw [if_pos hmem, if_pos (List.mem_cons_of_mem _ hmem),
        cellAt?_modifyCell, if_neg hne]
    · by_cases heq : a = (r, c)
      · rw [if_neg hmem, if_pos (by simp [heq]), cellAt?_modifyCell,
          if_pos ⟨by rw [heq], by rw [heq]⟩]
      · rw [if_neg hmem, if_neg (by
            simp only [List.mem_cons, hmem, or_false]
            exact fun h => heq h.symm),
          cellAt?_modifyCell, if_neg (by
            intro hrc
            exact heq (Prod.ext hrc.1 hrc.2))]

theorem aliveAtI_updateLNStep (g : List (List Cell)) (a : Nat × Nat)
    (p : Int × Int) : aliveAtI (updateLNStep g a) p = aliveAtI g p := by
  unfold updateLNStep
  exact aliveAtI_modifyCell g a.1 a.2
    (fun cell => { cell with livingNeighbous := countLivingNeighbours g cell.neighbours })
    (fun cell => rfl) p

theorem cellAt?_foldl_updateLN (L : List (Nat × Nat)) (g : List (List Cell))
    (r c : Nat) (hL : L.Nodup) :
    cellAt? (L.foldl updateLNStep g) r c =
      if (r, c) ∈ L then
        (cellAt? g r c).map (fun cell =>
          { cell with livingNeighbous := countLivingNeighbours g cell.neighbours })
      else cellAt? g r c := by
  induction L generalizing g with
  | nil => simp
  | cons a L ih =>
    rw [List.nodup_cons] at hL
    rw [List.foldl_cons, ih _ hL.2]
    have hcount : (fun cell =>
        { cell with livingNeighbous := countLivingNeighbours (updateLNStep g a) cell.neighbours })
        = (fun cell : Cell =>
        { cell with livingNeighbous := countLivingNeighbours g cell.neighbours }) := by
      funext cell
      rw [countLivingNeighbours_congr _ g (aliveAtI_updateLNStep g a)]
    by_cases hmem : (r, c) ∈ L
    · have hne : ¬(a.1 = r ∧ a.2 = c) := by
        intro hrc
        exact hL.1 (by
          have : a = (r, c) := Prod.ext hrc.1 hrc.2
          exact this ▸ hmem)
      rw [if_pos hmem, if_pos (List.mem_cons_of_mem _ hmem), hcount]
      unfold updateLNStep
      rw [cellAt?_modifyCell, if_neg hne]
    · by_cases heq : a = (r, c)
      · rw [if_neg hmem, if_pos (by simp [heq])]
        unfold updateLNStep
        rw [cellAt?_modifyCell, if_pos ⟨by rw [heq], by rw [heq]⟩]
      · rw [if_neg hmem, if_neg (by
          simp only [List.mem_cons, hmem, or_false]
          exact fun h => heq h.symm)]
        unfold updateLNStep
        rw [cellAt?_modifyCell, if_neg (by
          intro hrc
          exact heq (Prod.ext hrc.1 hrc.2))]

theorem mem_rowMajorIndices (rows cols r c : Nat) :
    (r, c) ∈ rowMajorIndices rows cols ↔ r < rows ∧ c < cols := by
  simp [rowMajorIndices]

theorem nodup_rowMajorIndices (rows cols : Nat) :
    (rowMajorIndices rows cols).Nodup := by
  unfold rowMajorIndices
  rw [List.nodup_flatMap]
  constructor
  · intro r _
    exact List.Nodup.map (fun x y hxy => by simpa using hxy) (List.nodup_range cols)
  · have h := List.pairwise_lt_range rows
    refine h.imp ?_
    intro a b hab
    intro p hpa hpb
    simp only [List.mem_map, List.mem_range] at hpa hpb
    obtain ⟨c₁, _, hc₁⟩ := hpa
    obtain ⟨c₂, _, hc₂⟩ := hpb
    rw [← hc₁] at hc₂
    have hE : b = a := ((Prod.mk.injEq _ _ _ _).mp hc₂).1
    omega

/-! Board-level consequences. -/

theorem updateLivingNeighbours_rowLength (b : Board) :
    b.updateLivingNeighbours.rowLength = b.rowLength := rfl

theorem updateLivingNeighbours_columnLength (b : Board) :
    b.updateLivingNeighbours.columnLength = b.columnLength := rfl

theorem updateAliveStatus_rowLength (b : Board) :
    b.updateAliveStatus.rowLength = b.rowLength := rfl

theorem updateAliveStatus_columnLength (b : Board) :
    b.updateAliveStatus.columnLength = b.columnLength := rfl

theorem step_rowLength (b : Board) : b.step.rowLength = b.rowLength := rfl

theorem step_columnLength (b : Board) : b.step.columnLength = b.columnLength := rfl

theorem step_cellSize (b : Board) : b.step.cellSize = b.cellSize := rfl

theorem cellAt?_updateLivingNeighbours (b : Board) (r c : Nat) :
    cellAt? b.updateLivingNeighbours.cells r c =
      if r < b.columnLength ∧ c < b.rowLength then
        (cellAt? b.cells r c).map (fun cell =>
          { cell with livingNeighbous := countLivingNeighbours b.cells cell.neighbours })
      else cellAt? b.cells r c := by
  unfold Board.updateLivingNeighbours
  rw [cellAt?_foldl_updateLN _ _ _ _ (nodup_rowMajorIndices _ _)]
  simp only [mem_rowMajorIndices]

theorem cellAt?_updateAliveStatus (b : Board) (r c : Nat) :
    cellAt? b.updateAliveStatus.cells r c =
      if r < b.columnLength ∧ c < b.rowLength then
        (cellAt? b.cells r c).map applyRules
      else cellAt? b.cells r c := by
  unfold Board.updateAliveStatus
  rw [cellAt?_foldl_modify _ _ _ _ _ (nodup_rowMajorIndices _ _)]
  simp only [mem_rowMajorIndices]

theorem cellAt?_step (b : Board) (r c : Nat) :
    cellAt? b.step.cells r c =
      if r < b.columnLength ∧ c < b.rowLength then
        (cellAt? b.cells r c).map (fun cell =>
          applyRules { cell with livingNeighbous := countLivingNeighbours b.cells cell.neighbours })
      else cellAt? b.cells r c := by
  unfold Board.step
  rw [cellAt?_updateAliveStatus]
  simp only [updateLivingNeighbours_rowLength, updateLivingNeighbours_columnLength]
  by_cases h : r < b.columnLength ∧ c < b.rowLength <;>
    simp [h, cellAt?_updateLivingNeighbours, Option.map_map, Function.comp_def]

theorem applyRules_alive (cell : Cell) :
    (applyRules cell).alive = conwayRule cell.alive cell.livingNeighbous := by
  rcases cell with ⟨a, ns, n, pos, sz⟩
  unfold applyRules conwayRule
  cases a <;> by_cases h1 : n < 2 ∨ n > 3 <;> by_cases h2 : n = 3 <;>
    simp [h1, h2] <;> omega

theorem applyRules_fields (cell : Cell) :
    (applyRules cell).neighbours = cell.neighbours ∧
    (applyRules cell).livingNeighbous = cell.livingNeighbous ∧
    (applyRules cell).position = cell.position ∧
    (applyRules cell).size = cell.size := by
  rcases cell with ⟨a, ns, n, pos, sz⟩
  unfold applyRules
  cases a <;> by_cases h1 : n < 2 ∨ n > 3 <;> by_cases h2 : n = 3 <;> simp [h1, h2]

theorem cellAt?_init (b : Board) (rand : Nat → Nat → Bool) (r c : Nat) :
    cellAt? (b.init rand).cells r c =
      if r < b.columnLength ∧ c < b.rowLength then
        some { alive := rand r c
               neighbours := b.getNeighbours (r : Int) (c : Int)
               livingNeighbous := 0
               position := ((r : Int), (c : Int))
               size := b.cellSize }
      else none := by
  unfold Board.init cellAt?
  by_cases hr : r < b.columnLength
  · rw [List.getElem?_map, List.getElem?_range hr]
    simp only [Option.map_some', Option.some_bind]
    by_cases hc : c < b.rowLength
    · rw [List.getElem?_map, List.getElem?_range hc]
      simp [hr, hc]
    · rw [List.getElem?_map, List.getElem?_eq_none (by simp; omega)]
      simp [hr, hc]
  · rw [List.getElem?_map, List.getElem?_eq_none (by simp; omega)]
    simp [hr]

theorem init_rowLength (b : Board) (rand : Nat → Nat → Bool) :
    (b.init rand).rowLength = b.rowLength := rfl

theorem init_columnLength (b : Board) (rand : Nat → Nat → Bool) :
    (b.init rand).columnLength = b.columnLength := rfl

theorem init_getNeighbours (b : Board) (rand : Nat → Nat → Bool) (row col : Int) :
    (b.init rand).getNeighbours row col = b.getNeighbours row col := rfl

theorem init_wellFormed (b : Board) (rand : Nat → Nat → Bool) :
    (b.init rand).WellFormed := by
  unfold Board.WellFormed
  refine ⟨by simp [Board.init], ?_, ?_⟩
  · intro row hrow
    simp only [Board.init, List.mem_map] at hrow
    obtain ⟨r, _, rfl⟩ := hrow
    simp [init_rowLength]
  · intro r hr c hc
    rw [init_columnLength] at hr
    rw [init_rowLength] at hc
    rw [cellAt?_init, if_pos ⟨hr, hc⟩]
    rfl

theorem aliveAtI_natCast (g : List (List Cell)) (r c : Nat) :
    aliveAtI g ((r : Int), (c : Int)) =
      ((cellAt? g r c).map Cell.alive).getD false := by
  unfold aliveAtI
  rw [if_pos ⟨Int.natCast_nonneg r, Int.natCast_nonneg c⟩]
  simp only [Int.toNat_natCast]
  cases cellAt? g r c <;> rfl

/-- Spec-side adjacency: `p` is one of the eight positions orthogonally or
diagonally adjacent to (row, col). -/
def Adjacent (row col : Int) (p : Int × Int) : Prop :=
  row - 1 ≤ p.1 ∧ p.1 ≤ row + 1 ∧ col - 1 ≤ p.2 ∧ p.2 ≤ col + 1 ∧ p ≠ (row, col)

theorem isInBounds_iff (b : Board) (p : Int × Int) :
    b.isInBounds p.1 p.2 = true ↔
      0 ≤ p.1 ∧ p.1 < (b.columnLength : Int) ∧ 0 ≤ p.2 ∧ p.2 < (b.rowLength : Int) := by
  simp [Board.isInBounds]

theorem mem_getNeighbours (b : Board) (row col : Int) (p : Int × Int) :
    p ∈ b.getNeighbours row col ↔ Adjacent row col p ∧ b.isInBounds p.1 p.2 = true := by
  unfold Board.getNeighbours Adjacent Board.directions
  rw [List.mem_filter]
  simp only [List.mem_map]
  constructor
  · rintro ⟨⟨d, hd, rfl⟩, hin⟩
    refine ⟨?_, hin⟩
    fin_cases hd <;>
      exact ⟨by omega, by omega, by omega, by omega, by
        intro hEq
        rw [Prod.ext_iff] at hEq
        omega⟩
  · rintro ⟨⟨h1, h2, h3, h4, hne⟩, hin⟩
    refine ⟨⟨(p.1 - row, p.2 - col), ?_, Prod.ext (by omega) (by omega)⟩, hin⟩
    have hdr : p.1 - row = -1 ∨ p.1 - row = 0 ∨ p.1 - row = 1 := by omega
    have hdc : p.2 - col = -1 ∨ p.2 - col = 0 ∨ p.2 - col = 1 := by omega
    have hne' : ¬(p.1 - row = 0 ∧ p.2 - col = 0) := by
      intro h
      exact hne (Prod.ext (by omega) (by omega))
    rcases hdr with h|h|h <;> rcases hdc with h'|h'|h' <;>
      simp [h, h', Prod.ext_iff] <;> omega

theorem wf_cellAt?_isSome (b : Board) (hb : b.WellFormed) (r c : Nat)
    (hr : r < b.columnLength) (hc : c < b.rowLength) :
    ∃ cell, cellAt? b.cells r c = some cell := by
  obtain ⟨hlen, hrows, _⟩ := hb
  unfold cellAt?
  rcases hg : b.cells[r]? with _ | row
  · rw [List.getElem?_eq_none_iff] at hg
    omega
  · have hmem : row ∈ b.cells := by
      have := List.getElem?_eq_some_iff.mp hg
      obtain ⟨hlt, hEq⟩ := this
      exact hEq ▸ List.getElem_mem hlt
    have hrowlen := hrows row hmem
    rcases hrc : row[c]? with _ | cell
    · rw [List.getElem?_eq_none_iff] at hrc
      omega
    · exact ⟨cell, by simp [hrc]⟩

theorem wf_neighbour_access (b : Board) (hb : b.WellFormed) (p : Int × Int)
    (hin : b.isInBounds p.1 p.2 = true) :
    ∃ cell, cellAt? b.cells p.1.toNat p.2.toNat = some cell := by
  rw [isInBounds_iff] at hin
  exact wf_cellAt?_isSome b hb p.1.toNat p.2.toNat (by omega) (by omega)

theorem directions_perm_adjacentOffsets :
    Board.directions.Perm adjacentOffsets := by
  decide

theorem count_stored_eq_spec (b : Board) (hb : b.WellFormed) (r c : Nat)
    (hr : r < b.columnLength) (hc : c < b.rowLength) (cell : Cell)
    (hcell : cellAt? b.cells r c = some cell) :
    countLivingNeighbours b.cells cell.neighbours =
      specLiveNeighbourCount b.columnLength b.rowLength
        (fun i j => aliveAtI b.cells (i, j)) (r : Int) (c : Int) := by
  have hnb : cell.neighbours = b.getNeighbours (r : Int) (c : Int) := by
    have hwf := hb.2.2 r hr c hc
    rw [hcell] at hwf
    simpa using hwf
  rw [hnb, countLivingNeighbours_eq_length_filter]
  unfold Board.getNeighbours specLiveNeighbourCount
  rw [List.filter_filter]
  have hpred : (fun p : Int × Int => aliveAtI b.cells p && b.isInBounds p.1 p.2)
      = (fun p : Int × Int =>
          decide (0 ≤ p.1 ∧ p.1 < (b.columnLength : Int) ∧ 0 ≤ p.2 ∧ p.2 < (b.rowLength : Int))
            && aliveAtI b.cells (p.1, p.2)) := by
    funext p
    rw [Bool.and_comm]
    rfl
  rw [hpred]
  exact (List.Perm.filter _
    (directions_perm_adjacentOffsets.map (fun d => ((r : Int) + d.1, (c : Int) + d.2)))).length_eq

theorem step_aliveAt (b : Board) (hb : b.WellFormed) (r c : Nat)
    (hr : r < b.columnLength) (hc : c < b.rowLength) :
    aliveAtI b.step.cells ((r : Int), (c : Int)) =
      specNextAlive b.columnLength b.rowLength
        (fun i j => aliveAtI b.cells (i, j)) (r : Int) (c : Int) := by
  obtain ⟨cell, hcell⟩ := wf_cellAt?_isSome b hb r c hr hc
  rw [aliveAtI_natCast, cellAt?_step, if_pos ⟨hr, hc⟩, hcell]
  simp only [Option.map_some', Option.getD_some]
  rw [applyRules_alive]
  unfold specNextAlive
  have h1 : aliveAtI b.cells ((r : Int), (c : Int)) = cell.alive := by
    rw [aliveAtI_natCast, hcell]
    rfl
  show conwayRule cell.alive (countLivingNeighbours b.cells cell.neighbours) =
    conwayRule (aliveAtI b.cells ((r : Int), (c : Int)))
      (specLiveNeighbourCount b.columnLength b.rowLength
        (fun i j => aliveAtI b.cells (i, j)) (r : Int) (c : Int))
  rw [h1, count_stored_eq_spec b hb r c hr hc cell hcell]

instance decidableWellFormed (b : Board) : Decidable b.WellFormed := by
  unfold Board.WellFormed
  infer_instance

/-- The number of live neighbours of the cell at (r, c), counted in the
previous generation (spec-side count over the in-bounds adjacent
positions). -/
def prevLiveNeighbours (b : Board) (r c : Nat) : Nat :=
  specLiveNeighbourCount b.columnLength b.rowLength
    (fun i j => aliveAtI b.cells (i, j)) (r : Int) (c : Int)

/-- Every cell of the board is dead. -/
def allCellsDead (b : Board) : Prop :=
  ∀ row ∈ b.cells, ∀ cell ∈ row, cell.alive = false

instance decidableAllCellsDead (b : Board) : Decidable (allCellsDead b) := by
  unfold allCellsDead
  infer_instance

/-- A deterministic pseudo-random assignment used by the test boards. -/
def testRand : Nat → Nat → Bool :=
  fun r c => decide ((r + 2 * c) % 3 = 0)

/-- A small 4×4 board shell for concrete witnesses. -/
def smallBoard : Board :=
  { rowLength := 4, columnLength := 4, cells := [], cellSize := 200 }

/-- The small board, initialised. -/
def testBoard : Board := smallBoard.init testRand

/-- The cell sitting at the corner (0, 0) of `testBoard`. -/
def testCell00 : Cell :=
  { alive := testRand 0 0
    neighbours := testBoard.getNeighbours 0 0
    livingNeighbous := 0
    position := (0, 0)
    size := testBoard.cellSize }

/-- C2: one tick (updateLivingNeighbours followed by updateAliveStatus) of a
well-formed board equals the pure simultaneous reference function: each
cell's next alive state is the rule applied to its previous state and its
previous-generation neighbour count, independent of the visiting order. -/
theorem step_equals_pure_simultaneous (b : Board) (hb : b.WellFormed)
    (r : Nat) (hr : r < b.columnLength) (c : Nat) (hc : c < b.rowLength) :
    aliveAtI b.step.cells ((r : Int), (c : Int)) =
      specNextAlive b.columnLength b.rowLength
        (fun i j => aliveAtI b.cells (i, j)) (r : Int) (c : Int) :=
  step_aliveAt b hb r c hr hc

theorem step_equals_pure_simultaneous_witness :
    testBoard.WellFormed ∧ 1 < testBoard.columnLength ∧ 2 < testBoard.rowLength ∧
      aliveAtI testBoard.step.cells ((1 : Int), (2 : Int)) =
        specNextAlive testBoard.columnLength testBoard.rowLength
          (fun i j => aliveAtI testBoard.cells (i, j)) (1 : Int) (2 : Int) :=
  ⟨by decide, by decide, by decide,
    step_equals_pure_simultaneous testBoard (by decide) 1 (by decide) 2 (by decide)⟩

/-- C1: after one step of a well-formed board, a cell that was alive with 2
or 3 live neighbours (counted in the previous generation) is alive; a cell
that was alive with fewer than 2 or more than 3 live neighbours is dead; a
cell that was dead with exactly 3 live neighbours is alive; every other
dead cell is dead. -/
theorem step_transition_rule (b : Board) (hb : b.WellFormed)
    (r c : Nat) (hr : r < b.columnLength) (hc : c < b.rowLength) :
    (aliveAtI b.cells ((r : Int), (c : Int)) = true ∧
        (prevLiveNeighbours b r c = 2 ∨ prevLiveNeighbours b r c = 3) →
      aliveAtI b.step.cells ((r : Int), (c : Int)) = true) ∧
    (aliveAtI b.cells ((r : Int), (c : Int)) = true ∧
        (prevLiveNeighbours b r c < 2 ∨ prevLiveNeighbours b r c > 3) →
      aliveAtI b.step.cells ((r : Int), (c : Int)) = false) ∧
    (aliveAtI b.cells ((r : Int), (c : Int)) = false ∧ prevLiveNeighbours b r c = 3 →
      aliveAtI b.step.cells ((r : Int), (c : Int)) = true) ∧
    (aliveAtI b.cells ((r : Int), (c : Int)) = false ∧ prevLiveNeighbours b r c ≠ 3 →
      aliveAtI b.step.cells ((r : Int), (c : Int)) = false) := by
  have hstep : aliveAtI b.step.cells ((r : Int), (c : Int)) =
      conwayRule (aliveAtI b.cells ((r : Int), (c : Int))) (prevLiveNeighbours b r c) :=
    step_aliveAt b hb r c hr hc
  rw [hstep]
  unfold conwayRule
  refine ⟨?_, ?_, ?_, ?_⟩ <;> rintro ⟨ha, hn⟩ <;> rw [ha] <;> simp <;> omega

theorem step_transition_rule_witness :
    testBoard.WellFormed ∧ 0 < testBoard.columnLength ∧ 0 < testBoard.rowLength ∧
      (aliveAtI testBoard.cells ((0 : Int), (0 : Int)) = true ∧
          (prevLiveNeighbours testBoard 0 0 = 2 ∨ prevLiveNeighbours testBoard 0 0 = 3) →
        aliveAtI testBoard.step.cells ((0 : Int), (0 : Int)) = true) :=
  ⟨by decide, by decide, by decide,
    (step_transition_rule testBoard (by decide) 0 0 (by decide) (by decide)).1⟩

/-- C3: for a well-formed board, the precomputed neighbour list of any cell
is exactly the subset of the eight orthogonally and diagonally adjacent
coordinates that lie within the board bounds, and every neighbour access
during counting hits an existing cell (the out-of-bounds branch is
unreachable). -/
theorem neighbours_exact_and_in_bounds (b : Board) (hb : b.WellFormed)
    (r c : Nat) (hr : r < b.columnLength) (hc : c < b.rowLength) (cell : Cell)
    (hcell : cellAt? b.cells r c = some cell) :
    (∀ p, p ∈ cell.neighbours ↔
      Adjacent (r : Int) (c : Int) p ∧ b.isInBounds p.1 p.2 = true) ∧
    (∀ p ∈ cell.neighbours, ∃ ncell, cellAt? b.cells p.1.toNat p.2.toNat = some ncell) := by
  have hnb : cell.neighbours = b.getNeighbours (r : Int) (c : Int) := by
    have hwf := hb.2.2 r hr c hc
    rw [hcell] at hwf
    simpa using hwf
  constructor
  · intro p
    rw [hnb, mem_getNeighbours]
  · intro p hp
    rw [hnb, mem_getNeighbours] at hp
    exact wf_neighbour_access b hb p hp.2

theorem neighbours_exact_and_in_bounds_witness :
    testBoard.WellFormed ∧ 0 < testBoard.columnLength ∧ 0 < testBoard.rowLength ∧
    cellAt? testBoard.cells 0 0 = some testCell00 ∧
    ((∀ p, p ∈ testCell00.neighbours ↔
        Adjacent (0 : Int) (0 : Int) p ∧ testBoard.isInBounds p.1 p.2 = true) ∧
      (∀ p ∈ testCell00.neighbours,
        ∃ ncell, cellAt? testBoard.cells p.1.toNat p.2.toNat = some ncell)) :=
  ⟨by decide, by decide, by decide, by decide,
    neighbours_exact_and_in_bounds testBoard (by decide) 0 0 (by decide) (by decide)
      testCell00 (by decide)⟩

theorem aliveAtI_of_allDead (g : List (List Cell))
    (h : ∀ row ∈ g, ∀ cell ∈ row, cell.alive = false) (p : Int × Int) :
    aliveAtI g p = false := by
  unfold aliveAtI
  by_cases hp : 0 ≤ p.1 ∧ 0 ≤ p.2
  · rw [if_pos hp]
    rcases hc : cellAt? g p.1.toNat p.2.toNat with _ | cell
    · rfl
    · unfold cellAt? at hc
      rcases hg : g[p.1.toNat]? with _ | row
      · rw [hg] at hc
        simp at hc
      · rw [hg] at hc
        simp only [Option.some_bind] at hc
        have hrowmem : row ∈ g := by
          obtain ⟨hlt, hEq⟩ := List.getElem?_eq_some_iff.mp hg
          exact hEq ▸ List.getElem_mem hlt
        have hcellmem : cell ∈ row := by
          obtain ⟨hlt, hEq⟩ := List.getElem?_eq_some_iff.mp hc
          exact hEq ▸ List.getElem_mem hlt
        exact h row hrowmem cell hcellmem
  · rw [if_neg hp]

/-- C4: stepping an all-dead board yields an all-dead board: no
spontaneous births. -/
theorem step_preserves_allDead (b : Board) (h : allCellsDead b) :
    allCellsDead b.step := by
  intro row hrow cell hcell
  obtain ⟨r, hr⟩ := List.mem_iff_getElem?.mp hrow
  obtain ⟨c, hc⟩ := List.mem_iff_getElem?.mp hcell
  have hdead := aliveAtI_of_allDead b.cells h
  have hcell? : cellAt? b.step.cells r c = some cell := by
    unfold cellAt?
    rw [hr, Option.some_bind, hc]
  rw [cellAt?_step] at hcell?
  by_cases hin : r < b.columnLength ∧ c < b.rowLength
  · rw [if_pos hin] at hcell?
    rcases horig : cellAt? b.cells r c with _ | cell0
    · rw [horig] at hcell?
      simp at hcell?
    · rw [horig] at hcell?
      simp only [Option.map_some', Option.some.injEq] at hcell?
      have hcount : countLivingNeighbours b.cells cell0.neighbours = 0 := by
        rw [countLivingNeighbours_eq_length_filter]
        rw [List.filter_eq_nil_iff.mpr (fun p _ => by simp [hdead p])]
        rfl
      have hc0 : cell0.alive = false := by
        have hA := hdead ((r : Int), (c : Int))
        rw [aliveAtI_natCast, horig] at hA
        simpa using hA
      rw [← hcell?, applyRules_alive]
      show conwayRule cell0.alive (countLivingNeighbours b.cells cell0.neighbours) = false
      rw [hc0, hcount]
      rfl
  · rw [if_neg hin] at hcell?
    have hA := hdead ((r : Int), (c : Int))
    rw [aliveAtI_natCast, hcell?] at hA
    simpa using hA

/-- The small board initialised with every cell dead. -/
def deadBoard : Board := smallBoard.init (fun _ _ => false)

theorem step_preserves_allDead_witness :
    allCellsDead deadBoard ∧ allCellsDead deadBoard.step :=
  ⟨by decide, step_preserves_allDead deadBoard (by decide)⟩

/-- C7: a step changes only alive flags and transient live-neighbour
counts: the board's dimensions and cell size are untouched, and each
cell's position, size and precomputed neighbour list are exactly what they
were before the step (the grid's shape included). -/
theorem step_frame_condition (b : Board) (r c : Nat) :
    b.step.rowLength = b.rowLength ∧
    b.step.columnLength = b.columnLength ∧
    b.step.cellSize = b.cellSize ∧
    (cellAt? b.step.cells r c).map (fun cell => (cell.position, cell.size, cell.neighbours)) =
      (cellAt? b.cells r c).map (fun cell => (cell.position, cell.size, cell.neighbours)) := by
  refine ⟨rfl, rfl, rfl, ?_⟩
  rw [cellAt?_step]
  by_cases h : r < b.columnLength ∧ c < b.rowLength
  · rw [if_pos h]
    rcases hcell : cellAt? b.cells r c with _ | cell
    · rfl
    · simp only [Option.map_some', Option.some.injEq]
      have hf := applyRules_fields
        { cell with livingNeighbous := countLivingNeighbours b.cells cell.neighbours }
      rw [hf.2.2.1, hf.1, hf.2.2.2]
  · rw [if_neg h]

/-- Number of adjacent offsets landing inside a 2×2 block whose top-left
corner is at relative position (-m, -k). -/
def blockRelCount (m k : Int) : Nat :=
  (adjacentOffsets.filter (fun d =>
    decide ((m + d.1 = 0 ∨ m + d.1 = 1) ∧ (k + d.2 = 0 ∨ k + d.2 = 1)))).length

theorem blockRelCount_eq_zero (m k : Int)
    (h : m ≤ -2 ∨ 3 ≤ m ∨ k ≤ -2 ∨ 3 ≤ k) : blockRelCount m k = 0 := by
  unfold blockRelCount
  rw [List.filter_eq_nil_iff.mpr (fun d hd => by
    unfold adjacentOffsets at hd
    fin_cases hd <;> simp <;> omega)]
  rfl

theorem conwayRule_blockRel (m k : Int) :
    conwayRule (decide ((m = 0 ∨ m = 1) ∧ (k = 0 ∨ k = 1))) (blockRelCount m k) =
      decide ((m = 0 ∨ m = 1) ∧ (k = 0 ∨ k = 1)) := by
  by_cases hm : -1 ≤ m ∧ m ≤ 2
  · by_cases hk : -1 ≤ k ∧ k ≤ 2
    · obtain ⟨hm1, hm2⟩ := hm
      obtain ⟨hk1, hk2⟩ := hk
      interval_cases m <;> interval_cases k <;> decide
    · rw [blockRelCount_eq_zero m k (by omega),
        decide_eq_false (show ¬((m = 0 ∨ m = 1) ∧ (k = 0 ∨ k = 1)) by omega)]
      rfl
  · rw [blockRelCount_eq_zero m k (by omega),
      decide_eq_false (show ¬((m = 0 ∨ m = 1) ∧ (k = 0 ∨ k = 1)) by omega)]
    rfl

/-- C5: a board whose only live cells form a 2×2 block away from the
boundary is a fixed point of the step: every cell's alive state is
unchanged by one tick. -/
theorem block_pattern_stable (b : Board) (hb : b.WellFormed) (r₀ c₀ : Nat)
    (hr₀ : 1 ≤ r₀) (hr₁ : r₀ + 2 < b.columnLength)
    (hc₀ : 1 ≤ c₀) (hc₁ : c₀ + 2 < b.rowLength)
    (hblock : ∀ r, r < b.columnLength → ∀ c, c < b.rowLength →
      aliveAtI b.cells ((r : Int), (c : Int)) =
        decide ((((r : Int)) = (r₀ : Int) ∨ ((r : Int)) = (r₀ : Int) + 1) ∧
          (((c : Int)) = (c₀ : Int) ∨ ((c : Int)) = (c₀ : Int) + 1))) :
    ∀ r, r < b.columnLength → ∀ c, c < b.rowLength →
      aliveAtI b.step.cells ((r : Int), (c : Int)) =
        aliveAtI b.cells ((r : Int), (c : Int)) := by
  have hblock' : ∀ p : Int × Int,
      0 ≤ p.1 → p.1 < (b.columnLength : Int) → 0 ≤ p.2 → p.2 < (b.rowLength : Int) →
      aliveAtI b.cells p =
        decide ((p.1 = (r₀ : Int) ∨ p.1 = (r₀ : Int) + 1) ∧
          (p.2 = (c₀ : Int) ∨ p.2 = (c₀ : Int) + 1)) := by
    intro p h1 h2 h3 h4
    have hcast := hblock p.1.toNat (by omega) p.2.toNat (by omega)
    rw [show ((p.1.toNat : Int), (p.2.toNat : Int)) = p from
      Prod.ext (by omega) (by omega)] at hcast
    rw [hcast]
    exact decide_eq_decide.mpr (by constructor <;> intro hx <;> omega)
  intro r hr c hc
  rw [step_aliveAt b hb r c hr hc]
  show conwayRule (aliveAtI b.cells ((r : Int), (c : Int)))
      (specLiveNeighbourCount b.columnLength b.rowLength
        (fun i j => aliveAtI b.cells (i, j)) (r : Int) (c : Int)) =
    aliveAtI b.cells ((r : Int), (c : Int))
  have hcount : specLiveNeighbourCount b.columnLength b.rowLength
      (fun i j => aliveAtI b.cells (i, j)) (r : Int) (c : Int) =
      blockRelCount ((r : Int) - (r₀ : Int)) ((c : Int) - (c₀ : Int)) := by
    unfold specLiveNeighbourCount blockRelCount
    rw [List.filter_map, List.length_map]
    apply congrArg
    apply List.filter_congr
    intro d _
    simp only [Function.comp]
    by_cases hcond : ((r : Int) + d.1 = (r₀ : Int) ∨ (r : Int) + d.1 = (r₀ : Int) + 1) ∧
        ((c : Int) + d.2 = (c₀ : Int) ∨ (c : Int) + d.2 = (c₀ : Int) + 1)
    · have hinb : 0 ≤ (r : Int) + d.1 ∧ (r : Int) + d.1 < (b.columnLength : Int) ∧
          0 ≤ (c : Int) + d.2 ∧ (c : Int) + d.2 < (b.rowLength : Int) := by omega
      rw [decide_eq_true hinb, Bool.true_and]
      rw [hblock' ((r : Int) + d.1, (c : Int) + d.2) (by omega) (by omega) (by omega) (by omega)]
      exact decide_eq_decide.mpr (by constructor <;> intro hx <;> omega)
    · rw [decide_eq_false (show ¬((((r : Int) - (r₀ : Int)) + d.1 = 0 ∨
          ((r : Int) - (r₀ : Int)) + d.1 = 1) ∧
          (((c : Int) - (c₀ : Int)) + d.2 = 0 ∨
            ((c : Int) - (c₀ : Int)) + d.2 = 1)) by omega)]
      by_cases hinb : 0 ≤ (r : Int) + d.1 ∧ (r : Int) + d.1 < (b.columnLength : Int) ∧
          0 ≤ (c : Int) + d.2 ∧ (c : Int) + d.2 < (b.rowLength : Int)
      · rw [decide_eq_true hinb, Bool.true_and]
        rw [hblock' ((r : Int) + d.1, (c : Int) + d.2) (by omega) (by omega) (by omega) (by omega)]
        exact decide_eq_false (by omega)
      · rw [decide_eq_false hinb, Bool.false_and]
  rw [hcount, hblock r hr c hc,
    show (decide ((((r : Int)) = (r₀ : Int) ∨ ((r : Int)) = (r₀ : Int) + 1) ∧
        (((c : Int)) = (c₀ : Int) ∨ ((c : Int)) = (c₀ : Int) + 1)))
      = decide ((((r : Int) - (r₀ : Int)) = 0 ∨ ((r : Int) - (r₀ : Int)) = 1) ∧
        (((c : Int) - (c₀ : Int)) = 0 ∨ ((c : Int) - (c₀ : Int)) = 1)) from
      decide_eq_decide.mpr (by constructor <;> intro hx <;> omega)]
  exact conwayRule_blockRel ((r : Int) - (r₀ : Int)) ((c : Int) - (c₀ : Int))

/-- A 6×6 board whose only live cells are the 2×2 block at rows 2–3,
columns 2–3. -/
def blockBoard : Board :=
  Board.init { rowLength := 6, columnLength := 6, cells := [], cellSize := 8 }
    (fun r c => decide ((r = 2 ∨ r = 3) ∧ (c = 2 ∨ c = 3)))

theorem block_pattern_stable_witness :
    blockBoard.WellFormed ∧ 1 ≤ 2 ∧ 2 + 2 < blockBoard.columnLength ∧
    1 ≤ 2 ∧ 2 + 2 < blockBoard.rowLength ∧
    (∀ r, r < blockBoard.columnLength → ∀ c, c < blockBoard.rowLength →
      aliveAtI blockBoard.cells ((r : Int), (c : Int)) =
        decide ((((r : Int)) = ((2 : Nat) : Int) ∨ ((r : Int)) = ((2 : Nat) : Int) + 1) ∧
          (((c : Int)) = ((2 : Nat) : Int) ∨ ((c : Int)) = ((2 : Nat) : Int) + 1))) ∧
    aliveAtI blockBoard.step.cells ((3 : Int), (3 : Int)) =
      aliveAtI blockBoard.cells ((3 : Int), (3 : Int)) :=
  ⟨by decide, by decide, by decide, by decide, by decide, by decide,
    block_pattern_stable blockBoard (by decide) 2 2 (by decide) (by decide)
      (by decide) (by decide) (by decide) 3 (by decide) 3 (by decide)⟩

/-- C5 counterexample: the step is not literally the identity on a fresh
2×2-block board, because it rewrites the transient live-neighbour counts
(each block cell's count becomes 3 where the fresh board stored 0), even
though every alive flag is unchanged. -/
theorem block_board_step_not_identical : blockBoard.step ≠ blockBoard := by
  decide

/-! The animation controller and the scheduler model. -/

theorem pause_board (ac : AnimationController) : ac.pause.board = ac.board := by
  unfold AnimationController.pause
  split <;> rfl

theorem pause_isPlaying (ac : AnimationController) : ac.pause.isPlaying = false := by
  unfold AnimationController.pause
  split
  case isTrue h => rfl
  case isFalse h => simpa using h

/-- C6: restart pauses the loop, clears the whole canvas, and
reinitialises the board in place: the dimensions are exactly those of the
previous board (fixed at construction from the canvas size and the
cells-per-row constant), and every cell is freshly rebuilt with the new
random alive assignment, a zero neighbour count and the precomputed
neighbour list. -/
theorem restart_reinitialises (ac : AnimationController) (rand : Nat → Nat → Bool)
    (r c : Nat) (fps : Nat) (rand₀ : Nat → Nat → Bool) :
    (ac.restart rand).1.board.rowLength = ac.board.rowLength ∧
    (ac.restart rand).1.board.columnLength = ac.board.columnLength ∧
    (ac.restart rand).1.isPlaying = false ∧
    (cellAt? (ac.restart rand).1.board.cells r c =
      if r < ac.board.columnLength ∧ c < ac.board.rowLength then
        some { alive := rand r c
               neighbours := ac.board.getNeighbours (r : Int) (c : Int)
               livingNeighbous := 0
               position := ((r : Int), (c : Int))
               size := ac.board.cellSize }
      else none) ∧
    (ac.restart rand).2 =
      CanvasOp.clearRect 0 0 canvasWidth canvasHeight :: (ac.restart rand).1.board.draw ∧
    (AnimationController.new fps rand₀).board.rowLength = cellsPerRow ∧
    (AnimationController.new fps rand₀).board.columnLength =
      canvasHeight / (canvasWidth / cellsPerRow) := by
  refine ⟨?_, ?_, ?_, ?_, rfl, rfl, rfl⟩
  · show (ac.pause.board.init rand).rowLength = ac.board.rowLength
    rw [init_rowLength, pause_board]
  · show (ac.pause.board.init rand).columnLength = ac.board.columnLength
    rw [init_columnLength, pause_board]
  · exact pause_isPlaying ac
  · show cellAt? (ac.pause.board.init rand).cells r c = _
    rw [cellAt?_init, pause_board]

/-- A board with no cells at all, for scheduler counterexamples where only
the control flow matters. -/
def emptyBoard : Board :=
  { rowLength := 0, columnLength := 0, cells := [], cellSize := 8 }

/-- A freshly idle world: controller stopped, nothing scheduled. -/
def idleWorld : World :=
  { ac := { fps := 5, board := emptyBoard, isPlaying := false, tref := 0 }
    pendingFrames := []
    pendingTimeouts := 0
    nextHandle := 1
    ticks := 0 }

/-- A stopped world that still has one animation frame pending. -/
def pausedWorld : World :=
  { ac := { fps := 5, board := emptyBoard, isPlaying := false, tref := 1 }
    pendingFrames := [1]
    pendingTimeouts := 0
    nextHandle := 2
    ticks := 3 }

/-- A playing world with its current frame pending. -/
def playingWorld : World :=
  { ac := { fps := 5, board := emptyBoard, isPlaying := true, tref := 1 }
    pendingFrames := [1]
    pendingTimeouts := 0
    nextHandle := 2
    ticks := 0 }

theorem runEvents_cons (w : World) (e : WEvent) (evs : List WEvent) :
    runEvents w (e :: evs) = runEvents (WStep w e) evs := rfl

theorem stopped_step_bound (w : World) (e : WEvent)
    (hstop : w.ac.isPlaying = false) (he : e.isPlayClick = false) :
    (WStep w e).ac.isPlaying = false ∧
    (WStep w e).ticks + (WStep w e).pendingFrames.length ≤
      w.ticks + w.pendingFrames.length := by
  cases e with
  | clickPlay => simp [WEvent.isPlayClick] at he
  | clickPause => exact ⟨pause_isPlaying w.ac, le_refl _⟩
  | fireFrame h =>
    by_cases hmem : h ∈ w.pendingFrames
    · have hlen := List.length_erase_add_one hmem
      constructor
      · simp [WStep, hmem, hstop]
      · simp only [WStep, if_pos hmem]
        omega
    · rw [show WStep w (WEvent.fireFrame h) = w from by simp [WStep, hmem]]
      exact ⟨hstop, le_refl _⟩
  | fireTimeout =>
    by_cases h0 : w.pendingTimeouts = 0
    · rw [show WStep w WEvent.fireTimeout = w from by simp [WStep, h0]]
      exact ⟨hstop, le_refl _⟩
    · rw [show WStep w WEvent.fireTimeout =
          { w with pendingFrames := w.pendingFrames.erase w.ac.tref
                   pendingTimeouts := w.pendingTimeouts - 1 } from by
        simp [WStep, h0, hstop]]
      refine ⟨hstop, ?_⟩
      by_cases hmem : w.ac.tref ∈ w.pendingFrames
      · have hlen := List.length_erase_add_one hmem
        simp only []
        omega
      · rw [List.erase_of_not_mem hmem]

theorem stopped_run_bound (evs : List WEvent) : ∀ w : World,
    w.ac.isPlaying = false → (∀ e ∈ evs, e.isPlayClick = false) →
    (runEvents w evs).ac.isPlaying = false ∧
    (runEvents w evs).ticks + (runEvents w evs).pendingFrames.length ≤
      w.ticks + w.pendingFrames.length := by
  induction evs with
  | nil => exact fun w h _ => ⟨h, le_refl _⟩
  | cons e evs ih =>
    intro w hstop hnp
    have hstep := stopped_step_bound w e hstop (hnp e (List.mem_cons_self _ _))
    have hrest := ih (WStep w e) hstep.1 (fun e' he' => hnp e' (List.mem_cons_of_mem _ he'))
    rw [runEvents_cons]
    exact ⟨hrest.1, le_trans hrest.2 hstep.2⟩

/-- C8 (amended): play transitions stopped→playing and schedules the
animation frame that starts the repeating tick loop; pause transitions
playing→stopped; after pause, no new frame is ever scheduled (the pending
timeout sees the stopped state and cancels instead), but frames already
scheduled before the pause still run one tick each — so the number of
ticks executed after a pause is bounded by the number of frames pending at
the pause, and once none are pending no further tick runs. -/
theorem play_pause_state_machine (w : World) (evs : List WEvent) :
    (w.ac.isPlaying = false →
      (WStep w WEvent.clickPlay).ac.isPlaying = true ∧
      (WStep w WEvent.clickPlay).pendingFrames = w.pendingFrames ++ [w.nextHandle]) ∧
    (w.ac.isPlaying = true → (WStep w WEvent.clickPause).ac.isPlaying = false) ∧
    (w.ac.isPlaying = false → (∀ e ∈ evs, e.isPlayClick = false) →
      (runEvents w evs).ac.isPlaying = false ∧
      (runEvents w evs).ticks ≤ w.ticks + w.pendingFrames.length) := by
  refine ⟨?_, ?_, ?_⟩
  · intro h
    constructor
    · simp [WStep, h, AnimationController.play]
    · simp [WStep, h]
  · intro h
    exact pause_isPlaying w.ac
  · intro hstop hnp
    have hrb := stopped_run_bound evs w hstop hnp
    refine ⟨hrb.1, ?_⟩
    have := hrb.2
    omega

theorem play_pause_state_machine_witness :
    pausedWorld.ac.isPlaying = false ∧
    ((runEvents pausedWorld [WEvent.fireFrame 1, WEvent.fireTimeout]).ac.isPlaying = false ∧
      (runEvents pausedWorld [WEvent.fireFrame 1, WEvent.fireTimeout]).ticks ≤
        pausedWorld.ticks + pausedWorld.pendingFrames.length) :=
  ⟨rfl, (play_pause_state_machine pausedWorld
    [WEvent.fireFrame 1, WEvent.fireTimeout]).2.2 rfl (by decide)⟩

/-- C8 counterexample: pause does not cancel an already-requested
animation frame; in the concrete run below the controller is stopped and
no tick has run after [play, pause], yet delivering the frame requested by
the play click still executes a full tick. -/
theorem tick_runs_after_pause :
    (runEvents idleWorld [WEvent.clickPlay, WEvent.clickPause]).ac.isPlaying = false ∧
    (runEvents idleWorld [WEvent.clickPlay, WEvent.clickPause]).ticks = 0 ∧
    (runEvents idleWorld
      [WEvent.clickPlay, WEvent.clickPause, WEvent.fireFrame 1]).ticks = 1 := by
  refine ⟨by decide, by decide, by decide⟩

/-- C10: play while already playing and pause while already stopped leave
the whole world unchanged: no state change and nothing newly scheduled (in
particular no second tick loop). -/
theorem play_pause_idempotent (w : World) :
    (w.ac.isPlaying = true → WStep w WEvent.clickPlay = w) ∧
    (w.ac.isPlaying = false → WStep w WEvent.clickPause = w) := by
  constructor
  · intro h
    simp [WStep, h]
  · intro h
    show { w with ac := w.ac.pause } = w
    rw [show w.ac.pause = w.ac from by
      unfold AnimationController.pause
      rw [if_neg (by simp [h])]]

theorem play_pause_idempotent_witness :
    WStep playingWorld WEvent.clickPlay = playingWorld ∧
    WStep idleWorld WEvent.clickPause = idleWorld :=
  ⟨(play_pause_idempotent playingWorld).1 rfl, (play_pause_idempotent idleWorld).2 rfl⟩

/-- The method used in a sample non-matching request. -/
def postMethod : String := "POST"

/-- A sample path under the static mount. -/
def samplePublicPath : String := "/public/app.js"

/-- C9: the server listens on the fixed port 5000 and routes exactly two
kinds of requests: GET / to the entry HTML page and GET paths under
/public to the static asset directory; everything else falls through to
the framework 404 — there is no other routing logic. -/
theorem server_routing (m p rest : String) :
    port = 5000 ∧
    handle getMethod rootPath = HttpResponse.sendFile indexFile ∧
    (matchesPublic rest = true →
      handle getMethod rest = HttpResponse.staticFile (rest.drop publicMount.length)) ∧
    (¬(m = getMethod ∧ matchesPublic p = true) → ¬(m = getMethod ∧ p = rootPath) →
      handle m p = HttpResponse.notFound) := by
  refine ⟨rfl, by decide, ?_, ?_⟩
  · intro h
    simp [handle, h, getMethod]
  · intro h1 h2
    unfold handle
    by_cases hm : m = getMethod
    · have hmp : matchesPublic p = false := by
        cases hmpv : matchesPublic p
        · rfl
        · exact absurd ⟨hm, hmpv⟩ h1
      have hproot : (p == rootPath) = false := by
        cases hpv : p == rootPath
        · rfl
        · exact absurd ⟨hm, by simpa using hpv⟩ h2
      simp [hm, hmp, hproot]
    · have hmb : (m == getMethod) = false := by
        cases hmv : m == getMethod
        · rfl
        · exact absurd (by simpa using hmv) hm
      simp [hmb]

theorem server_routing_witness :
    port = 5000 ∧
    handle getMethod rootPath = HttpResponse.sendFile indexFile ∧
    matchesPublic samplePublicPath = true ∧
    handle getMethod samplePublicPath =
      HttpResponse.staticFile (samplePublicPath.drop publicMount.length) ∧
    handle postMethod rootPath = HttpResponse.notFound := by
  have h := server_routing postMethod rootPath samplePublicPath
  exact ⟨h.1, h.2.1, by decide, h.2.2.1 (by decide), h.2.2.2 (by decide) (by decide)⟩

end GameOfLife
